import Mathlib

/-!
# Verification of libsigc++'s `signal_connect` convenience layer and signal core

This development embeds the `sigc::signal_connect` overload set of
`sigc++/signal_connect.h` and the signal/slot/connection core it forwards to.
The convenience overloads are translated directly from the header; the core
(`signal::connect`, `ptr_fun`, `mem_fun`, `bind`, slots, connections,
emission) is not part of the visible sources, so it is modelled from the
specification's description of those components.
-/

namespace Sigc

/-! ## The convenience layer: adaptors and `signal.connect`

`α` stands for the packed invocation arguments `(T_arg...)` of a signal of
shape `T_return(T_arg...)`, and `β` stands for `T_return`.  An adaptor is an
invocable of exactly that shape. -/

/-- Modelled from the spec: a Signal owns an ordered sequence of Slots
(insertion order defines emission order); `signal.connect` is the subscribe
operation.  Only the subscriber sequence and the identity counter are needed
by the convenience layer.  `sigc++/signal.h` is not among the visible
sources. -/
structure Sig (α β : Type) where
  slots : List (α → β)
  nextId : Nat

/-- Modelled from the spec: `subscribe(adaptor) -> Connection` appends a new
active Slot built from the adaptor and returns a Connection to it
(`sigc++/signal.h` is not among the visible sources).  The Connection is the
fresh Slot identity. -/
def Sig.connect {α β : Type} (s : Sig α β) (f : α → β) : Sig α β × Nat :=
  (⟨s.slots ++ [f], s.nextId + 1⟩, s.nextId)

/-- Modelled from the spec: the function form of the Callable Adaptor "wraps
a context-free function reference; invocation forwards arguments unchanged"
(`sigc++/functors/ptr_fun.h` is not among the visible sources). -/
def ptr_fun {α β : Type} (f : α → β) : α → β :=
  f

/-- Access qualification of the receiver reference stored by a method
adaptor: `mutable` models `T_obj&`, `readonly` models `const T_obj&`. -/
inductive Access : Type where
  | mutable
  | readonly
deriving DecidableEq

/-- Qualification of a member function: `T_return (T_obj::*)(T_arg...)`
optionally `const`, `volatile` or `const volatile`. -/
inductive MethodQual : Type where
  | nonconst
  | constq
  | volatileq
  | constVolatileq
deriving DecidableEq

/-- Modelled from the spec: the method form of the Callable Adaptor "wraps a
(receiver, member-function) pair; invocation forwards arguments to the member
function on the stored receiver reference"; the receiver-qualification
variants differ only in the reference's access mode
(`sigc++/functors/mem_fun.h` is not among the visible sources). -/
structure MemFun (Obj α β : Type) where
  access : Access
  obj : Obj
  method : Obj → α → β

/-- Modelled from the spec: `mem_fun(obj, fun)` constructs the method-form
adaptor, recording the access qualification of the stored receiver
reference. -/
def mem_fun {Obj α β : Type} (acc : Access) (obj : Obj) (m : Obj → α → β) :
    MemFun Obj α β :=
  ⟨acc, obj, m⟩

/-- Modelled from the spec: invocation of a method adaptor calls the member
function through the stored receiver reference, forwarding the arguments. -/
def MemFun.toAdaptor {Obj α β : Type} (m : MemFun Obj α β) : α → β :=
  fun a => m.method m.obj a

/-- Modelled from the spec: the partial-application form `bind` wraps an
inner adaptor of signature `(Args..., Bound...) -> Return` plus the bound
trailing values; invocation supplies the caller's `Args...` followed by the
stored bound values to the inner adaptor.  `γ0` is the first (explicit) bound
argument `T_bound0`, `γr` packs the variable-length tail `T_boundn...`
(possibly `Unit`).  `sigc++/bind.h` is not among the visible sources. -/
def bind {α γ0 γr β : Type} (inner : α × γ0 × γr → β) (b0 : γ0) (bn : γr) :
    α → β :=
  fun a => inner (a, b0, bn)

/-! ### The `signal_connect` overloads, from `sigc++/signal_connect.h` -/

/-- From `signal_connect.h` line 38: the generic callable overload,
`return signal.connect(fun);`. -/
def signal_connect {α β : Type} (s : Sig α β) (fun' : α → β) : Sig α β × Nat :=
  s.connect fun'

/-- From `signal_connect.h` line 53: the plain-function overload,
`return signal.connect(ptr_fun<T_return, T_arg...>(fun));`. -/
def signal_connect_fun {α β : Type} (s : Sig α β) (fun' : α → β) :
    Sig α β × Nat :=
  s.connect (ptr_fun fun')

/-- From `signal_connect.h` line 69: the non-const method overload takes
`T_obj& obj` and a `T_return (T_obj::*)(T_arg...)`, and forwards
`mem_fun<T_return, T_obj, T_obj, T_arg...>(obj, fun)` to `connect`. -/
def signal_connect_method_nonconst {Obj α β : Type} (s : Sig α β) (obj : Obj)
    (fun' : Obj → α → β) : Sig α β × Nat :=
  s.connect (mem_fun Access.mutable obj fun').toAdaptor

/-- From `signal_connect.h` line 85: the const method overload takes
`const T_obj& obj` and a `... const` method, and forwards
`mem_fun<T_return, const T_obj, const T_obj, T_arg...>(obj, fun)` to
`connect`. -/
def signal_connect_method_const {Obj α β : Type} (s : Sig α β) (obj : Obj)
    (fun' : Obj → α → β) : Sig α β × Nat :=
  s.connect (mem_fun Access.readonly obj fun').toAdaptor

/-- From `signal_connect.h` line 100: the volatile method overload takes
`T_obj& obj` and a `... volatile` method, and forwards
`mem_fun<T_return, T_obj, T_obj, T_arg...>(obj, fun)` to `connect`. -/
def signal_connect_method_volatile {Obj α β : Type} (s : Sig α β) (obj : Obj)
    (fun' : Obj → α → β) : Sig α β × Nat :=
  s.connect (mem_fun Access.mutable obj fun').toAdaptor

/-- From `signal_connect.h` line 115: the const volatile method overload
takes `const T_obj& obj` and a `... const volatile` method, and forwards
`mem_fun<T_return, const T_obj, const T_obj, T_arg...>(obj, fun)` to
`connect`. -/
def signal_connect_method_const_volatile {Obj α β : Type} (s : Sig α β)
    (obj : Obj) (fun' : Obj → α → β) : Sig α β × Nat :=
  s.connect (mem_fun Access.readonly obj fun').toAdaptor

/-- From `signal_connect.h` line 132: the bound-argument function overload,
`return signal.connect(bind(ptr_fun<...>(fun), bound0, boundn...));`. -/
def signal_connect_bind_fun {α γ0 γr β : Type} (s : Sig α β)
    (fun' : α × γ0 × γr → β) (bound0 : γ0) (boundn : γr) : Sig α β × Nat :=
  s.connect (bind (ptr_fun fun') bound0 boundn)

/-- From `signal_connect.h` line 150: the bound-argument non-const method
overload, `return signal.connect(bind(mem_fun<...>(obj, fun), bound0,
boundn...));` with receiver reference `T_obj&`. -/
def signal_connect_bind_method_nonconst {Obj α γ0 γr β : Type} (s : Sig α β)
    (obj : Obj) (fun' : Obj → α × γ0 × γr → β) (bound0 : γ0) (boundn : γr) :
    Sig α β × Nat :=
  s.connect (bind (mem_fun Access.mutable obj fun').toAdaptor bound0 boundn)

/-- From `signal_connect.h` line 168: the bound-argument const method
overload, with receiver reference `const T_obj&`. -/
def signal_connect_bind_method_const {Obj α γ0 γr β : Type} (s : Sig α β)
    (obj : Obj) (fun' : Obj → α × γ0 × γr → β) (bound0 : γ0) (boundn : γr) :
    Sig α β × Nat :=
  s.connect (bind (mem_fun Access.readonly obj fun').toAdaptor bound0 boundn)

/-- From `signal_connect.h` line 186: the bound-argument volatile method
overload, with receiver reference `T_obj&`. -/
def signal_connect_bind_method_volatile {Obj α γ0 γr β : Type} (s : Sig α β)
    (obj : Obj) (fun' : Obj → α × γ0 × γr → β) (bound0 : γ0) (boundn : γr) :
    Sig α β × Nat :=
  s.connect (bind (mem_fun Access.mutable obj fun').toAdaptor bound0 boundn)

/-- From `signal_connect.h` line 204: the bound-argument const volatile
method overload, with receiver reference `const T_obj&`. -/
def signal_connect_bind_method_const_volatile {Obj α γ0 γr : Type}
    {β : Type} (s : Sig α β) (obj : Obj) (fun' : Obj → α × γ0 × γr → β)
    (bound0 : γ0) (boundn : γr) : Sig α β × Nat :=
  s.connect (bind (mem_fun Access.readonly obj fun').toAdaptor bound0 boundn)

/-- From the source overload set (`signal_connect.h` lines 69-120): which
method overload of `signal_connect`, if any, accepts a receiver of the given
access qualification together with a member function of the given
qualification, and the access qualification of the receiver reference it
passes to `mem_fun`.  A `const T_obj&` parameter (the `const` and
`const volatile` overloads) binds both mutable and read-only receivers; a
`T_obj&` parameter (the non-const and `volatile` overloads) binds only
mutable receivers, so a read-only receiver with a method requiring mutable
access matches no overload at all: `none`, a type-level rejection carrying no
runtime state. -/
def method_overload : Access → MethodQual → Option Access
  | _, MethodQual.constq => some Access.readonly
  | _, MethodQual.constVolatileq => some Access.readonly
  | Access.mutable, MethodQual.nonconst => some Access.mutable
  | Access.mutable, MethodQual.volatileq => some Access.mutable
  | Access.readonly, MethodQual.nonconst => none
  | Access.readonly, MethodQual.volatileq => none

/-! ## The signal core: slots, connections and the emission algorithm

`sigc++/signal.h`, `sigc++/connection.h` and `sigc++/trackable.h` are not
among the visible sources, so this state machine is modelled from the
specification (sections 3, 4.3, 4.4 and 5).  A slot's callback may itself
disconnect slots or append new subscribers during an emission, so callbacks
are embedded as a small syntax of effects on the owning signal. -/

/-- Modelled from the spec: what one slot's callback does when invoked.  A
callback returns an result value and may, reentrantly, disconnect any slot
(itself included) or append a new subscriber to the same signal. -/
inductive SlotAction : Type where
  | ret (v : Int)
  | disconnectThen (target : Nat) (v : Int)
  | appendThen (a : SlotAction) (v : Int)
deriving DecidableEq

/-- Modelled from the spec: one stored Slot — a stable identity, the
type-erased callable, the lifecycle flags (disconnected, blocked) and the
optional weak linkage to a tracked receiver object. -/
structure SlotRec : Type where
  id : Nat
  action : SlotAction
  disconnected : Bool
  blocked : Bool
  tracked : Option Nat
deriving DecidableEq

/-- Modelled from the spec: a Signal owns an ordered sequence of Slots
(insertion order defines emission order) plus the counter producing fresh
slot identities.  Disconnection marks a slot; physical reclamation is
deferred, so the sequence and the positions of existing slots are stable. -/
structure SignalState : Type where
  slots : List SlotRec
  nextId : Nat
deriving DecidableEq

/-- Modelled from the spec: `subscribe` appends a new active, unblocked Slot
(registered against a tracked receiver when the callable is bound to one)
and returns the Connection — the fresh slot identity. -/
def subscribe (st : SignalState) (a : SlotAction) (tr : Option Nat) :
    SignalState × Nat :=
  (⟨st.slots ++ [⟨st.nextId, a, false, false, tr⟩], st.nextId + 1⟩, st.nextId)

/-- Modelled from the spec: `disconnect` is idempotent and only marks the
slot disconnected; the slot record stays in place until reclaimed at a safe
point. -/
def disconnect (st : SignalState) (c : Nat) : SignalState :=
  ⟨st.slots.map fun s =>
      if s.id = c then ⟨s.id, s.action, true, s.blocked, s.tracked⟩ else s,
    st.nextId⟩

/-- Modelled from the spec: `block` toggles the blocked flag; a disconnected
slot ignores block calls. -/
def block (st : SignalState) (c : Nat) : SignalState :=
  ⟨st.slots.map fun s =>
      if s.id = c ∧ s.disconnected = false then
        ⟨s.id, s.action, s.disconnected, true, s.tracked⟩
      else s,
    st.nextId⟩

/-- Modelled from the spec: `unblock` clears the blocked flag of a
still-connected slot. -/
def unblock (st : SignalState) (c : Nat) : SignalState :=
  ⟨st.slots.map fun s =>
      if s.id = c ∧ s.disconnected = false then
        ⟨s.id, s.action, s.disconnected, false, s.tracked⟩
      else s,
    st.nextId⟩

/-- Modelled from the spec: destroying a tracked receiver flows through the
Lifetime Tracker and invalidates (disconnects) every Slot bound to it. -/
def destroyReceiver (st : SignalState) (r : Nat) : SignalState :=
  ⟨st.slots.map fun s =>
      if s.tracked = some r then ⟨s.id, s.action, true, s.blocked, s.tracked⟩
      else s,
    st.nextId⟩

/-- Modelled from the spec: `connected()` resolves the Connection's identity
to its Slot and reports whether it is still connected; resolution failure
reports "not connected". -/
def connectedQ (st : SignalState) (c : Nat) : Bool :=
  st.slots.any fun s => s.id = c ∧ s.disconnected = false

/-- Modelled from the spec: a Connection is a lightweight value holding a
Slot identity, or "already gone"; a default-constructed Connection holds no
identity. -/
def Connection : Type := Option Nat

/-- A default-constructed Connection refers to no slot. -/
def Connection.default : Connection := none

/-- Modelled from the spec: `connected()` on a Connection; a
default-constructed Connection is always "not connected". -/
def Connection.connectedQ (st : SignalState) : Connection → Bool
  | none => false
  | some c => Sigc.connectedQ st c

/-- Modelled from the spec: running one slot's callback — it may disconnect
a slot or append a new subscriber (appended slots carry no tracker linkage),
and produces the callback's result value. -/
def runAction (st : SignalState) : SlotAction → SignalState × Int
  | SlotAction.ret v => (st, v)
  | SlotAction.disconnectThen t v => (disconnect st t, v)
  | SlotAction.appendThen a v => ((subscribe st a none).1, v)

/-- Modelled from the spec, emission step 2: walk the positions of the
emission frontier in order; at each position re-check the slot's current
state, skip it if disconnected or blocked without consuming an accumulator
slot, otherwise invoke it and record its identity and result.  `fuel` is the
number of frontier positions still to visit, so slots appended during the
walk are never reached. -/
def emitWalk : Nat → Nat → SignalState → SignalState × List (Nat × Int)
  | 0, _, st => (st, [])
  | fuel + 1, i, st =>
    match st.slots[i]? with
    | none => (st, [])
    | some s =>
      if s.disconnected = true ∨ s.blocked = true then
        emitWalk fuel (i + 1) st
      else
        let p := runAction st s.action
        let q := emitWalk fuel (i + 1) p.1
        (q.1, (s.id, p.2) :: q.2)

/-- Modelled from the spec, emission steps 1-3: snapshot the slot count as
the emission frontier and walk it from position 0, producing the final state
and the ordered list of (slot identity, result) pairs fed to the
accumulation policy. -/
def emit (st : SignalState) : SignalState × List (Nat × Int) :=
  emitWalk st.slots.length 0 st

/-- Modelled from the spec, emission step 5: the accumulation policy folds
the per-slot results of one emission, starting from the policy's
identity/default value. -/
def accumulate {σ : Type} (policy : σ → Int → σ) (init : σ)
    (results : List (Nat × Int)) : σ :=
  results.foldl (fun acc p => policy acc p.2) init

/-- Modelled from the spec: the default "keep-last" accumulation policy. -/
def keepLast : Option Int → Int → Option Int :=
  fun _ v => some v

/-- Modelled from the spec: a "collect-all" accumulation policy gathering
the per-slot results in order. -/
def collectAll : List Int → Int → List Int :=
  fun acc v => acc ++ [v]

/-- One externally invokable operation on a signal, for quantifying over
operation sequences. -/
inductive Op : Type where
  | opSubscribe (a : SlotAction) (tr : Option Nat)
  | opDisconnect (c : Nat)
  | opBlock (c : Nat)
  | opUnblock (c : Nat)
  | opEmit
  | opDestroy (r : Nat)
deriving DecidableEq

/-- Apply one operation to a signal state. -/
def applyOp (st : SignalState) : Op → SignalState
  | Op.opSubscribe a tr => (subscribe st a tr).1
  | Op.opDisconnect c => disconnect st c
  | Op.opBlock c => block st c
  | Op.opUnblock c => unblock st c
  | Op.opEmit => (emit st).1
  | Op.opDestroy r => destroyReceiver st r

/-- Apply a sequence of operations in order. -/
def applyOps (st : SignalState) (ops : List Op) : SignalState :=
  ops.foldl applyOp st

/-- Well-formedness of a signal state: slot identities are pairwise distinct
and below the fresh-identity counter. -/
def WF (st : SignalState) : Prop :=
  (st.slots.map SlotRec.id).Nodup ∧ ∀ s ∈ st.slots, s.id < st.nextId

instance : DecidablePred WF := fun st => by
  unfold WF
  infer_instance

/-- Whether a callback, when run, disconnects the slot with identity `c`. -/
def targetsB : SlotAction → Nat → Bool
  | SlotAction.disconnectThen t _, c => t = c
  | _, _ => false

/-- The slot with identity `c` carries the disconnected mark. -/
def discMarked (st : SignalState) (c : Nat) : Prop :=
  ∃ s ∈ st.slots, s.id = c ∧ s.disconnected = true

instance : ∀ st c, Decidable (discMarked st c) := fun st c => by
  unfold discMarked
  infer_instance

/-! ### How states evolve under emission-time mutations

During one emission the only mutations are `disconnect` (mark in place) and
`subscribe` (append a fresh slot), so every position that existed before an
emission step still holds the same slot afterwards, with the same identity,
callback, blocked flag and tracker linkage; only the disconnected mark can
grow.  Appended slots carry fresh identities. -/

structure Evolves (a b : SignalState) : Prop where
  nextId_le : a.nextId ≤ b.nextId
  len_le : a.slots.length ≤ b.slots.length
  stable : ∀ i : Nat, i < a.slots.length →
    ∃ s s', a.slots[i]? = some s ∧ b.slots[i]? = some s' ∧
      s'.id = s.id ∧ s'.action = s.action ∧ s'.blocked = s.blocked ∧
      s'.tracked = s.tracked ∧ (s.disconnected = true → s'.disconnected = true)
  fresh : ∀ j : Nat, ∀ s', a.slots.length ≤ j → b.slots[j]? = some s' →
    a.nextId ≤ s'.id

theorem Evolves.refl (a : SignalState) : Evolves a a := by
  refine ⟨le_refl _, le_refl _, ?_, ?_⟩
  · intro i hi
    exact ⟨a.slots[i], a.slots[i], List.getElem?_eq_getElem hi,
      List.getElem?_eq_getElem hi, rfl, rfl, rfl, rfl, fun h => h⟩
  · intro j s' hj hs'
    exact absurd (List.getElem?_eq_some_iff.mp hs').1 (not_lt.mpr hj)

theorem Evolves.trans {a b c : SignalState} (hab : Evolves a b)
    (hbc : Evolves b c) : Evolves a c := by
  refine ⟨le_trans hab.nextId_le hbc.nextId_le,
    le_trans hab.len_le hbc.len_le, ?_, ?_⟩
  · intro i hi
    obtain ⟨s, s', h1, h2, hid, hact, hbl, htr, hdis⟩ := hab.stable i hi
    obtain ⟨t, t', h3, h4, hid', hact', hbl', htr', hdis'⟩ :=
      hbc.stable i (lt_of_lt_of_le hi hab.len_le)
    rw [h2] at h3
    cases h3
    exact ⟨s, t', h1, h4, hid'.trans hid, hact'.trans hact, hbl'.trans hbl,
      htr'.trans htr, fun h => hdis' (hdis h)⟩
  · intro j s' hj hs'
    by_cases hjb : j < b.slots.length
    · obtain ⟨t, t', h3, h4, hid', _, _, _, _⟩ := hbc.stable j hjb
      rw [hs'] at h4
      cases h4
      exact hid' ▸ hab.fresh j t hj h3
    · exact le_trans hab.nextId_le (hbc.fresh j s' (not_lt.mp hjb) hs')

theorem disconnect_getElem? (st : SignalState) (c i : Nat) :
    (disconnect st c).slots[i]? = (st.slots[i]?).map fun s =>
      if s.id = c then ⟨s.id, s.action, true, s.blocked, s.tracked⟩ else s := by
  simp [disconnect]

theorem subscribe_getElem?_lt (st : SignalState) (a : SlotAction)
    (tr : Option Nat) (i : Nat) (hi : i < st.slots.length) :
    (subscribe st a tr).1.slots[i]? = st.slots[i]? := by
  simp [subscribe, List.getElem?_append, hi]

theorem evolves_disconnect (st : SignalState) (c : Nat) :
    Evolves st (disconnect st c) := by
  refine ⟨le_refl _, by simp [disconnect], ?_, ?_⟩
  · intro i hi
    refine ⟨st.slots[i],
      if st.slots[i].id = c then
        ⟨st.slots[i].id, st.slots[i].action, true, st.slots[i].blocked,
          st.slots[i].tracked⟩
      else st.slots[i],
      List.getElem?_eq_getElem hi, ?_, ?_, ?_, ?_, ?_, ?_⟩
    · rw [disconnect_getElem?, List.getElem?_eq_getElem hi]
      rfl
    · split <;> rfl
    · split <;> rfl
    · split <;> rfl
    · split <;> rfl
    · intro h
      split
      · rfl
      · exact h
  · intro j s' hj hs'
    rw [disconnect_getElem?, List.getElem?_eq_none (by simpa [disconnect] using hj)] at hs'
    exact absurd hs' (by simp)

theorem evolves_subscribe (st : SignalState) (a : SlotAction)
    (tr : Option Nat) : Evolves st (subscribe st a tr).1 := by
  refine ⟨Nat.le_succ _, by simp [subscribe], ?_, ?_⟩
  · intro i hi
    refine ⟨st.slots[i], st.slots[i], List.getElem?_eq_getElem hi, ?_,
      rfl, rfl, rfl, rfl, fun h => h⟩
    rw [subscribe_getElem?_lt st a tr i hi]
    exact List.getElem?_eq_getElem hi
  · intro j s' hj hs'
    simp only [subscribe] at hs'
    rw [List.getElem?_append_right hj] at hs'
    have hj0 : j - st.slots.length = 0 := by
      rcases List.getElem?_eq_some_iff.mp hs' with ⟨hlt, _⟩
      simpa using Nat.lt_one_iff.mp (by simpa using hlt)
    rw [hj0] at hs'
    simp only [List.getElem?_cons_zero, Option.some_inj] at hs'
    exact hs' ▸ le_refl _

theorem evolves_runAction (st : SignalState) (a : SlotAction) :
    Evolves st (runAction st a).1 := by
  cases a with
  | ret v => exact Evolves.refl st
  | disconnectThen t v => exact evolves_disconnect st t
  | appendThen a v => exact evolves_subscribe st a none

theorem evolves_emitWalk (fuel : Nat) : ∀ (i : Nat) (st : SignalState),
    Evolves st (emitWalk fuel i st).1 := by
  induction fuel with
  | zero => intro i st; exact Evolves.refl st
  | succ fuel ih =>
    intro i st
    rw [emitWalk]
    cases h : st.slots[i]? with
    | none => exact Evolves.refl st
    | some s =>
      by_cases hd : s.disconnected = true ∨ s.blocked = true
      · simpa only [if_pos hd] using ih (i + 1) st
      · simp only [if_neg hd]
        exact (evolves_runAction st s.action).trans (ih (i + 1) _)

theorem evolves_emit (st : SignalState) : Evolves st (emit st).1 :=
  evolves_emitWalk st.slots.length 0 st

theorem emitWalk_succ_none {st : SignalState} {i : Nat}
    (h : st.slots[i]? = none) (fuel : Nat) :
    emitWalk (fuel + 1) i st = (st, []) := by
  simp only [emitWalk, h]

theorem emitWalk_succ_skip {st : SignalState} {i : Nat} {s : SlotRec}
    (h : st.slots[i]? = some s)
    (hd : s.disconnected = true ∨ s.blocked = true) (fuel : Nat) :
    emitWalk (fuel + 1) i st = emitWalk fuel (i + 1) st := by
  simp only [emitWalk, h, if_pos hd]

theorem emitWalk_succ_invoke {st : SignalState} {i : Nat} {s : SlotRec}
    (h : st.slots[i]? = some s)
    (hd : ¬(s.disconnected = true ∨ s.blocked = true)) (fuel : Nat) :
    emitWalk (fuel + 1) i st =
      ((emitWalk fuel (i + 1) (runAction st s.action).1).1,
        (s.id, (runAction st s.action).2) ::
          (emitWalk fuel (i + 1) (runAction st s.action).1).2) := by
  simp only [emitWalk, h, if_neg hd]

/-- Every identity/result pair recorded by the walk belongs to a slot that
already existed, active and unblocked, at a frontier position when the walk
began. -/
theorem emitWalk_trace_mem (st0 : SignalState) :
    ∀ (fuel i : Nat) (st : SignalState), Evolves st0 st →
      i + fuel ≤ st0.slots.length →
      ∀ c v, (c, v) ∈ (emitWalk fuel i st).2 →
      ∃ j s, i ≤ j ∧ j < i + fuel ∧ st0.slots[j]? = some s ∧ s.id = c ∧
        s.disconnected = false ∧ s.blocked = false := by
  intro fuel
  induction fuel with
  | zero =>
    intro i st _ _ c v h
    simp [emitWalk] at h
  | succ fuel ih =>
    intro i st hev hle c v h
    cases hsi : st.slots[i]? with
    | none =>
      rw [emitWalk_succ_none hsi] at h
      simp at h
    | some s =>
      by_cases hd : s.disconnected = true ∨ s.blocked = true
      · rw [emitWalk_succ_skip hsi hd] at h
        obtain ⟨j, s', hij, hjlt, h3, h4, h5, h6⟩ :=
          ih (i + 1) st hev (by omega) c v h
        exact ⟨j, s', by omega, by omega, h3, h4, h5, h6⟩
      · rw [emitWalk_succ_invoke hsi hd] at h
        simp only [List.mem_cons] at h
        cases h with
        | inl hhead =>
          have hcv : c = s.id ∧ v = (runAction st s.action).2 := by
            exact ⟨congrArg Prod.fst hhead, congrArg Prod.snd hhead⟩
          have hi0 : i < st0.slots.length := by omega
          obtain ⟨s0, s1, h0, h1, hid, hact, hbl, htr, hdis⟩ :=
            hev.stable i hi0
          rw [hsi] at h1
          cases h1
          push_neg at hd
          refine ⟨i, s0, le_refl i, by omega, h0, ?_, ?_, ?_⟩
          · rw [hcv.1, hid]
          · cases h0d : s0.disconnected with
            | false => rfl
            | true => exact absurd (hdis h0d) (by simpa using hd.1)
          · rw [← hbl]
            simpa using hd.2
        | inr htail =>
          obtain ⟨j, s', hij, hjlt, h3, h4, h5, h6⟩ :=
            ih (i + 1) (runAction st s.action).1
              (hev.trans (evolves_runAction st s.action)) (by omega) c v htail
          exact ⟨j, s', by omega, by omega, h3, h4, h5, h6⟩

/-- The identities recorded by the walk form a sublist (hence respect the
order) of the identities of the frontier slots it was started on. -/
theorem emitWalk_trace_sublist (st0 : SignalState) :
    ∀ (fuel i : Nat) (st : SignalState), Evolves st0 st →
      i + fuel ≤ st0.slots.length →
      ((emitWalk fuel i st).2.map Prod.fst).Sublist
        (((st0.slots.drop i).take fuel).map SlotRec.id) := by
  intro fuel
  induction fuel with
  | zero =>
    intro i st _ _
    simp [emitWalk]
  | succ fuel ih =>
    intro i st hev hle
    have hi0 : i < st0.slots.length := by omega
    have hdrop : st0.slots.drop i = st0.slots[i] :: st0.slots.drop (i + 1) :=
      List.drop_eq_getElem_cons hi0
    cases hsi : st.slots[i]? with
    | none =>
      rw [emitWalk_succ_none hsi]
      simp
    | some s =>
      obtain ⟨s0, s1, h0, h1, hid, _, _, _, _⟩ := hev.stable i hi0
      rw [hsi] at h1
      cases h1
      have hs0 : st0.slots[i] = s0 := by
        have hg := List.getElem?_eq_getElem hi0
        rw [h0] at hg
        exact (Option.some_inj.mp hg).symm
      rw [hdrop, hs0, List.take_succ_cons, List.map_cons]
      by_cases hd : s.disconnected = true ∨ s.blocked = true
      · rw [emitWalk_succ_skip hsi hd]
        exact (ih (i + 1) st hev (by omega)).cons _
      · rw [emitWalk_succ_invoke hsi hd]
        simp only [List.map_cons]
        rw [hid]
        exact (ih (i + 1) _ (hev.trans (evolves_runAction st s.action))
          (by omega)).cons₂ _

/-- The identities invoked by one emission respect subscription order and
form a sublist of the signal's slot identities. -/
theorem emit_trace_sublist (st : SignalState) :
    ((emit st).2.map Prod.fst).Sublist (st.slots.map SlotRec.id) := by
  have h := emitWalk_trace_sublist st st.slots.length 0 st (Evolves.refl st)
    (by omega)
  simpa [emit] using h

/-- Under well-formedness no slot is invoked twice in one emission. -/
theorem emit_trace_nodup (st : SignalState) (hWF : WF st) :
    ((emit st).2.map Prod.fst).Nodup :=
  (emit_trace_sublist st).nodup hWF.1

/-- An emission never invokes a slot already carrying the disconnected
mark when the emission begins. -/
theorem emit_not_invoke_discMarked (st : SignalState) (c : Nat) (hWF : WF st)
    (hdm : discMarked st c) : c ∉ (emit st).2.map Prod.fst := by
  intro hc
  obtain ⟨p, hmem, hfst⟩ := List.mem_map.mp hc
  obtain ⟨c', v⟩ := p
  simp only at hfst
  subst hfst
  obtain ⟨j, s0, _, _, hj, hid, hdis, _⟩ :=
    emitWalk_trace_mem st st.slots.length 0 st (Evolves.refl st) (by omega)
      c' v (by simpa [emit] using hmem)
  obtain ⟨s1, hs1mem, hs1id, hs1dis⟩ := hdm
  have hs0mem : s0 ∈ st.slots := List.getElem?_mem hj
  have heq : s0 = s1 :=
    List.inj_on_of_nodup_map hWF.1 hs0mem hs1mem (by rw [hid, hs1id])
  rw [heq, hs1dis] at hdis
  exact absurd hdis (by simp)

/-- The disconnected mark survives any evolution of the state. -/
theorem discMarked_evolves {a b : SignalState} (hev : Evolves a b) {c : Nat}
    (h : discMarked a c) : discMarked b c := by
  obtain ⟨s, hs, hid, hdis⟩ := h
  obtain ⟨i, hi, hgi⟩ := List.getElem_of_mem hs
  have hgiq : a.slots[i]? = some s := by
    rw [List.getElem?_eq_getElem hi, hgi]
  obtain ⟨s0, s', h0, h1, hid', _, _, _, hdis'⟩ := hev.stable i hi
  rw [hgiq] at h0
  cases h0
  exact ⟨s', List.getElem?_mem h1, by rw [hid', hid], hdis' hdis⟩

/-- The disconnected mark survives every external operation: there is no
reconnect, and fresh subscriptions never revive an old slot record. -/
theorem discMarked_applyOp {st : SignalState} {c : Nat} (h : discMarked st c) :
    ∀ op : Op, discMarked (applyOp st op) c := by
  intro op
  obtain ⟨s, hs, hid, hdis⟩ := h
  cases op with
  | opSubscribe a tr =>
    exact ⟨s, by simp [applyOp, subscribe]; exact Or.inl hs, hid, hdis⟩
  | opDisconnect c' =>
    refine ⟨_, List.mem_map_of_mem _ hs, ?_⟩
    constructor
    · split <;> simp [hid]
    · split <;> simp [hdis]
  | opBlock c' =>
    refine ⟨_, List.mem_map_of_mem _ hs, ?_⟩
    constructor
    · split <;> simp [hid]
    · split <;> simp [hdis]
  | opUnblock c' =>
    refine ⟨_, List.mem_map_of_mem _ hs, ?_⟩
    constructor
    · split <;> simp [hid]
    · split <;> simp [hdis]
  | opEmit => exact discMarked_evolves (evolves_emit st) ⟨s, hs, hid, hdis⟩
  | opDestroy r =>
    refine ⟨_, List.mem_map_of_mem _ hs, ?_⟩
    constructor
    · split <;> simp [hid]
    · split <;> simp [hdis]

theorem discMarked_applyOps {c : Nat} :
    ∀ (ops : List Op) (st : SignalState), discMarked st c →
      discMarked (applyOps st ops) c := by
  intro ops
  induction ops with
  | nil =>
    intro st h
    exact h
  | cons op ops ih =>
    intro st h
    exact ih _ (discMarked_applyOp h op)

theorem wf_map_id_preserving {st : SignalState} (hWF : WF st)
    (f : SlotRec → SlotRec) (hf : ∀ s, (f s).id = s.id) :
    WF ⟨st.slots.map f, st.nextId⟩ := by
  constructor
  · have hmm : (st.slots.map f).map SlotRec.id = st.slots.map SlotRec.id := by
      rw [List.map_map]
      exact List.map_congr_left fun s _ => hf s
    rw [hmm]
    exact hWF.1
  · intro s hs
    obtain ⟨s', hs', rfl⟩ := List.mem_map.mp hs
    rw [hf]
    exact hWF.2 s' hs'

theorem wf_subscribe {st : SignalState} (hWF : WF st) (a : SlotAction)
    (tr : Option Nat) : WF (subscribe st a tr).1 := by
  constructor
  · simp only [subscribe, List.map_append, List.map_cons, List.map_nil]
    refine List.Nodup.append hWF.1 (List.nodup_singleton _) ?_
    intro x hx hx'
    simp only [List.mem_singleton] at hx'
    obtain ⟨s', hs', rfl⟩ := List.mem_map.mp hx
    exact absurd hx' (Nat.ne_of_lt (hWF.2 s' hs'))
  · intro s hs
    simp only [subscribe, List.mem_append, List.mem_singleton] at hs
    cases hs with
    | inl h => exact Nat.lt_succ_of_lt (hWF.2 s h)
    | inr h => rw [h]; exact Nat.lt_succ_self _

theorem wf_disconnect {st : SignalState} (hWF : WF st) (c : Nat) :
    WF (disconnect st c) :=
  wf_map_id_preserving hWF _ (fun s => by split <;> rfl)

theorem wf_block {st : SignalState} (hWF : WF st) (c : Nat) :
    WF (block st c) :=
  wf_map_id_preserving hWF _ (fun s => by split <;> rfl)

theorem wf_unblock {st : SignalState} (hWF : WF st) (c : Nat) :
    WF (unblock st c) :=
  wf_map_id_preserving hWF _ (fun s => by split <;> rfl)

theorem wf_destroyReceiver {st : SignalState} (hWF : WF st) (r : Nat) :
    WF (destroyReceiver st r) :=
  wf_map_id_preserving hWF _ (fun s => by split <;> rfl)

theorem wf_runAction {st : SignalState} (hWF : WF st) (a : SlotAction) :
    WF (runAction st a).1 := by
  cases a with
  | ret v => exact hWF
  | disconnectThen t v => exact wf_disconnect hWF t
  | appendThen a v => exact wf_subscribe hWF a none

theorem wf_emitWalk (fuel : Nat) : ∀ (i : Nat) (st : SignalState), WF st →
    WF (emitWalk fuel i st).1 := by
  induction fuel with
  | zero =>
    intro i st h
    exact h
  | succ fuel ih =>
    intro i st h
    cases hsi : st.slots[i]? with
    | none =>
      rw [emitWalk_succ_none hsi]
      exact h
    | some s =>
      by_cases hd : s.disconnected = true ∨ s.blocked = true
      · rw [emitWalk_succ_skip hsi hd]
        exact ih (i + 1) st h
      · rw [emitWalk_succ_invoke hsi hd]
        exact ih (i + 1) _ (wf_runAction h s.action)

theorem wf_emit {st : SignalState} (hWF : WF st) : WF (emit st).1 :=
  wf_emitWalk st.slots.length 0 st hWF

theorem wf_applyOp {st : SignalState} (hWF : WF st) (op : Op) :
    WF (applyOp st op) := by
  cases op with
  | opSubscribe a tr => exact wf_subscribe hWF a tr
  | opDisconnect c => exact wf_disconnect hWF c
  | opBlock c => exact wf_block hWF c
  | opUnblock c => exact wf_unblock hWF c
  | opEmit => exact wf_emit hWF
  | opDestroy r => exact wf_destroyReceiver hWF r

theorem wf_applyOps : ∀ (ops : List Op) (st : SignalState), WF st →
    WF (applyOps st ops) := by
  intro ops
  induction ops with
  | nil =>
    intro st h
    exact h
  | cons op ops ih =>
    intro st h
    exact ih _ (wf_applyOp h op)

/-- Running a callback that does not target slot identity `s.id` leaves the
slot record at position `j` untouched. -/
theorem runAction_preserves_slot {st : SignalState} {j : Nat} {s : SlotRec}
    (hj : st.slots[j]? = some s) (a : SlotAction)
    (hnt : targetsB a s.id = false) :
    (runAction st a).1.slots[j]? = some s := by
  cases a with
  | ret v => exact hj
  | disconnectThen t v =>
    have ht : ¬t = s.id := by simpa [targetsB] using hnt
    show (disconnect st t).slots[j]? = some s
    rw [disconnect_getElem?, hj]
    show some (if s.id = t then ⟨s.id, s.action, true, s.blocked, s.tracked⟩
      else s) = some s
    rw [if_neg (fun h => ht h.symm)]
  | appendThen a v =>
    have hlt : j < st.slots.length := (List.getElem?_eq_some_iff.mp hj).1
    show (subscribe st a none).1.slots[j]? = some s
    rw [subscribe_getElem?_lt st a none j hlt]
    exact hj

/-- A slot that is present, active and unblocked when the walk starts, lies
within the frontier, and is never targeted by any frontier callback, is
invoked by the walk. -/
theorem emitWalk_invokes (st0 : SignalState) (c : Nat)
    (hH : ∀ s' ∈ st0.slots, targetsB s'.action c = false) :
    ∀ (fuel i : Nat) (st : SignalState), Evolves st0 st →
      i + fuel ≤ st0.slots.length →
      ∀ (j : Nat) (s : SlotRec), i ≤ j → j < i + fuel →
        st.slots[j]? = some s → s.id = c → s.disconnected = false →
        s.blocked = false →
        c ∈ (emitWalk fuel i st).2.map Prod.fst := by
  intro fuel
  induction fuel with
  | zero =>
    intro i st _ _ j s hij hjlt _ _ _ _
    omega
  | succ fuel ih =>
    intro i st hev hle j s hij hjlt hjs hid hdis hbl
    have hjlen : j < st.slots.length := (List.getElem?_eq_some_iff.mp hjs).1
    have hilen : i < st.slots.length := lt_of_le_of_lt hij hjlen
    cases hsi : st.slots[i]? with
    | none =>
      have := List.getElem?_eq_none_iff.mp hsi
      omega
    | some si =>
      by_cases hcase : i = j
      · subst hcase
        rw [hjs] at hsi
        cases hsi
        have hd : ¬(s.disconnected = true ∨ s.blocked = true) := by
          simp [hdis, hbl]
        rw [emitWalk_succ_invoke hjs hd]
        simp [hid]
      · have hltj : i < j := lt_of_le_of_ne hij hcase
        by_cases hd : si.disconnected = true ∨ si.blocked = true
        · rw [emitWalk_succ_skip hsi hd]
          exact ih (i + 1) st hev (by omega) j s (by omega) (by omega) hjs
            hid hdis hbl
        · rw [emitWalk_succ_invoke hsi hd]
          have hi0 : i < st0.slots.length := by omega
          obtain ⟨s0, s1, h0, h1, _, hact0, _, _, _⟩ := hev.stable i hi0
          rw [hsi] at h1
          cases h1
          have hnt : targetsB si.action c = false := by
            rw [hact0]
            exact hH s0 (List.getElem?_mem h0)
          have hjs' : (runAction st si.action).1.slots[j]? = some s :=
            runAction_preserves_slot hjs si.action (by rw [hid]; exact hnt)
          have hmem := ih (i + 1) (runAction st si.action).1
            (hev.trans (evolves_runAction st si.action)) (by omega) j s
            (by omega) (by omega) hjs' hid hdis hbl
          simp only [List.map_cons, List.mem_cons]
          exact Or.inr hmem

/-- Top-level form: an active, unblocked slot no frontier callback targets
is invoked by `emit`. -/
theorem emit_invokes (st : SignalState) (s : SlotRec) (hmem : s ∈ st.slots)
    (hdis : s.disconnected = false) (hbl : s.blocked = false)
    (hH : ∀ s' ∈ st.slots, targetsB s'.action s.id = false) :
    s.id ∈ (emit st).2.map Prod.fst := by
  obtain ⟨j, hj, hgj⟩ := List.getElem_of_mem hmem
  exact emitWalk_invokes st s.id hH st.slots.length 0 st (Evolves.refl st)
    (by omega) j s (by omega) (by omega)
    (by rw [List.getElem?_eq_getElem hj, hgj]) rfl hdis hbl

/-- If the unique slot with identity `c` self-disconnects, then whenever the
walk has invoked `c` the final state carries the disconnected mark on it. -/
theorem emitWalk_selfDisconnect (st0 : SignalState) (c : Nat) (v : Int)
    (hact : ∀ s' ∈ st0.slots, s'.id = c →
      s'.action = SlotAction.disconnectThen c v) :
    ∀ (fuel i : Nat) (st : SignalState), Evolves st0 st →
      i + fuel ≤ st0.slots.length →
      c ∈ (emitWalk fuel i st).2.map Prod.fst →
      discMarked (emitWalk fuel i st).1 c := by
  intro fuel
  induction fuel with
  | zero =>
    intro i st _ _ h
    simp [emitWalk] at h
  | succ fuel ih =>
    intro i st hev hle hc
    cases hsi : st.slots[i]? with
    | none =>
      rw [emitWalk_succ_none hsi] at hc
      simp at hc
    | some s =>
      by_cases hd : s.disconnected = true ∨ s.blocked = true
      · rw [emitWalk_succ_skip hsi hd] at hc ⊢
        exact ih (i + 1) st hev (by omega) hc
      · rw [emitWalk_succ_invoke hsi hd] at hc ⊢
        simp only [List.map_cons, List.mem_cons] at hc
        by_cases hch :
            c ∈ (emitWalk fuel (i + 1) (runAction st s.action).1).2.map
              Prod.fst
        · exact ih (i + 1) _ (hev.trans (evolves_runAction st s.action))
            (by omega) hch
        · have hcs : c = s.id := by
            cases hc with
            | inl h => exact h
            | inr h => exact absurd h hch
          have hi0 : i < st0.slots.length := by omega
          obtain ⟨s0, s1, h0, h1, hid0, hact0, _, _, _⟩ := hev.stable i hi0
          rw [hsi] at h1
          cases h1
          have hs0id : s0.id = c := hid0.symm.trans hcs.symm
          have hact' : s.action = SlotAction.disconnectThen c v := by
            rw [hact0]
            exact hact s0 (List.getElem?_mem h0) hs0id
          have hdm : discMarked (runAction st s.action).1 c := by
            rw [hact']
            show discMarked (disconnect st c) c
            have hsmem : s ∈ st.slots := List.getElem?_mem hsi
            have himg := List.mem_map_of_mem (fun s' : SlotRec =>
              if s'.id = c then
                ⟨s'.id, s'.action, true, s'.blocked, s'.tracked⟩
              else s') hsmem
            simp only at himg
            rw [if_pos hcs.symm] at himg
            exact ⟨⟨s.id, s.action, true, s.blocked, s.tracked⟩, himg,
              hcs.symm, rfl⟩
          have hfin := discMarked_evolves
            (evolves_emitWalk fuel (i + 1) (runAction st s.action).1) hdm
          rw [hact'] at hfin ⊢
          exact hfin

/-- If every slot is disconnected or blocked, the walk invokes nothing and
leaves the state untouched. -/
theorem emitWalk_all_skipped (st : SignalState)
    (hall : ∀ s ∈ st.slots, s.disconnected = true ∨ s.blocked = true) :
    ∀ (fuel i : Nat), emitWalk fuel i st = (st, []) := by
  intro fuel
  induction fuel with
  | zero =>
    intro i
    rfl
  | succ fuel ih =>
    intro i
    cases hsi : st.slots[i]? with
    | none => exact emitWalk_succ_none hsi fuel
    | some s =>
      rw [emitWalk_succ_skip hsi (hall s (List.getElem?_mem hsi)) fuel]
      exact ih (i + 1)

/-! ## The claims -/

/-- Claim C1: for every signal of shape `Return(Args...)` and every plain
function `fun` of that exact shape, `signal_connect(signal, fun)` returns
exactly the connection (and post-state) produced by
`signal.connect(ptr_fun(fun))`; the convenience overload adds no behaviour
of its own beyond this forwarding — it agrees with the generic overload, and
the registered adaptor forwards its arguments to `fun` unchanged. -/
theorem C1_signal_connect_fun_refines {α β : Type} (s : Sig α β)
    (f : α → β) :
    signal_connect_fun s f = s.connect (ptr_fun f) ∧
    signal_connect_fun s f = signal_connect s f ∧
    ∀ a, ptr_fun f a = f a :=
  ⟨rfl, rfl, fun _ => rfl⟩

/-- Claim C2: each of the four method-qualification overloads of
`signal_connect` returns the connection produced by
`signal.connect(mem_fun(obj, fun))`; the four variants differ only in the
access qualification of the receiver reference passed to `mem_fun`
(read-only for const-qualified methods, mutable otherwise), and invocation
is identical for every access qualification — no difference in control
flow. -/
theorem C2_signal_connect_method_variants {Obj α β : Type} (s : Sig α β)
    (obj : Obj) (m : Obj → α → β) :
    signal_connect_method_nonconst s obj m =
      s.connect (mem_fun Access.mutable obj m).toAdaptor ∧
    signal_connect_method_const s obj m =
      s.connect (mem_fun Access.readonly obj m).toAdaptor ∧
    signal_connect_method_volatile s obj m =
      s.connect (mem_fun Access.mutable obj m).toAdaptor ∧
    signal_connect_method_const_volatile s obj m =
      s.connect (mem_fun Access.readonly obj m).toAdaptor ∧
    ∀ (q q' : Access) (a : α),
      (mem_fun q obj m).toAdaptor a = (mem_fun q' obj m).toAdaptor a :=
  ⟨rfl, rfl, rfl, rfl, fun _ _ _ => rfl⟩

/-- Claim C3: the bound-argument overloads of `signal_connect` connect a
callable that, when invoked with the signal's unbound arguments, calls the
wrapped function (or method on its receiver) with the caller's unbound
arguments followed by the stored bound values in order; one explicit bound
trailing value `b0` plus a variable-length tail `bn` (an arbitrary further
type, possibly a tuple or `Unit`) is supported. -/
theorem C3_signal_connect_bound_arguments {Obj α γ0 γr β : Type}
    (s : Sig α β) (f : α × γ0 × γr → β) (obj : Obj)
    (m : Obj → α × γ0 × γr → β) (b0 : γ0) (bn : γr) :
    (signal_connect_bind_fun s f b0 bn).1.slots =
      s.slots ++ [bind (ptr_fun f) b0 bn] ∧
    (∀ a, bind (ptr_fun f) b0 bn a = f (a, b0, bn)) ∧
    (signal_connect_bind_method_nonconst s obj m b0 bn).1.slots =
      s.slots ++ [bind (mem_fun Access.mutable obj m).toAdaptor b0 bn] ∧
    (∀ a, bind (mem_fun Access.mutable obj m).toAdaptor b0 bn a =
      m obj (a, b0, bn)) :=
  ⟨rfl, fun _ => rfl, rfl, fun _ => rfl⟩

/-- Claim C4: binding a read-only receiver to a method requiring only
read-only access succeeds — an overload exists, it passes a read-only
receiver reference to `mem_fun`, and invocation of the connected adaptor
calls the method — while binding a read-only receiver to a method requiring
mutable access matches no overload at all: the rejection is the type-level
`none` of the overload-resolution function, produced at construction with no
runtime state and hence never a runtime failure. -/
theorem C4_readonly_receiver_binding {Obj α β : Type} (s : Sig α β)
    (obj : Obj) (m : Obj → α → β) :
    method_overload Access.readonly MethodQual.constq =
      some Access.readonly ∧
    (signal_connect_method_const s obj m).1.slots =
      s.slots ++ [(mem_fun Access.readonly obj m).toAdaptor] ∧
    (∀ a, (mem_fun Access.readonly obj m).toAdaptor a = m obj a) ∧
    method_overload Access.readonly MethodQual.nonconst = none ∧
    method_overload Access.readonly MethodQual.volatileq = none :=
  ⟨rfl, rfl, fun _ => rfl, rfl, rfl⟩

/-- Claim C10: every `signal_connect` overload (generic callable, plain
function, the four method variants, and the five bound-argument variants) is
exactly one call to `signal.connect`, whose connection value it returns
unchanged; `connect` itself only appends the single new slot, advances the
identity counter, and returns the fresh identity — no other effect on the
signal, and the receiver object is only stored, never altered. -/
theorem C10_signal_connect_frame {Obj α γ0 γr β : Type} (s : Sig α β)
    (f : α → β) (obj : Obj) (m : Obj → α → β) (g : α × γ0 × γr → β)
    (mg : Obj → α × γ0 × γr → β) (b0 : γ0) (bn : γr) :
    (∀ ad : α → β, (s.connect ad).1.slots = s.slots ++ [ad] ∧
      (s.connect ad).1.nextId = s.nextId + 1 ∧
      (s.connect ad).2 = s.nextId) ∧
    (∃ ad, signal_connect s f = s.connect ad) ∧
    (∃ ad, signal_connect_fun s f = s.connect ad) ∧
    (∃ ad, signal_connect_method_nonconst s obj m = s.connect ad) ∧
    (∃ ad, signal_connect_method_const s obj m = s.connect ad) ∧
    (∃ ad, signal_connect_method_volatile s obj m = s.connect ad) ∧
    (∃ ad, signal_connect_method_const_volatile s obj m = s.connect ad) ∧
    (∃ ad, signal_connect_bind_fun s g b0 bn = s.connect ad) ∧
    (∃ ad, signal_connect_bind_method_nonconst s obj mg b0 bn =
      s.connect ad) ∧
    (∃ ad, signal_connect_bind_method_const s obj mg b0 bn =
      s.connect ad) ∧
    (∃ ad, signal_connect_bind_method_volatile s obj mg b0 bn =
      s.connect ad) ∧
    (∃ ad, signal_connect_bind_method_const_volatile s obj mg b0 bn =
      s.connect ad) :=
  ⟨fun _ => ⟨rfl, rfl, rfl⟩, ⟨_, rfl⟩, ⟨_, rfl⟩, ⟨_, rfl⟩, ⟨_, rfl⟩,
    ⟨_, rfl⟩, ⟨_, rfl⟩, ⟨_, rfl⟩, ⟨_, rfl⟩, ⟨_, rfl⟩, ⟨_, rfl⟩, ⟨_, rfl⟩⟩

/-- Claim C5: for all sequences of subscribe, disconnect, block, unblock,
destroy and emit operations on one well-formed signal, emit never invokes a
slot whose connection was disconnected strictly before that emit began; no
slot is invoked twice in one emission pass; and a slot that disconnects
itself during its own invocation is never invoked by any later emit,
whatever operations happen in between. -/
theorem C5_emit_respects_disconnect (st : SignalState) (c : Nat)
    (hWF : WF st) :
    (discMarked st c →
      ∀ ops : List Op, c ∉ (emit (applyOps st ops)).2.map Prod.fst) ∧
    ((emit st).2.map Prod.fst).Nodup ∧
    (∀ v : Int,
      (∀ s' ∈ st.slots, s'.id = c →
        s'.action = SlotAction.disconnectThen c v) →
      c ∈ (emit st).2.map Prod.fst →
      ∀ ops : List Op,
        c ∉ (emit (applyOps (emit st).1 ops)).2.map Prod.fst) := by
  refine ⟨?_, emit_trace_nodup st hWF, ?_⟩
  · intro hdm ops
    exact emit_not_invoke_discMarked _ c (wf_applyOps ops st hWF)
      (discMarked_applyOps ops st hdm)
  · intro v hact hc ops
    have hdm : discMarked (emit st).1 c :=
      emitWalk_selfDisconnect st c v hact st.slots.length 0 st
        (Evolves.refl st) (by omega) (by simpa [emit] using hc)
    exact emit_not_invoke_discMarked _ c
      (wf_applyOps ops _ (wf_emit hWF)) (discMarked_applyOps ops _ hdm)

theorem C5_witness :
    (0 : Nat) ∉ (emit (applyOps
      (emit ⟨[⟨0, SlotAction.disconnectThen 0 5, false, false, none⟩],
        1⟩).1 [])).2.map Prod.fst :=
  (C5_emit_respects_disconnect
    ⟨[⟨0, SlotAction.disconnectThen 0 5, false, false, none⟩], 1⟩ 0
    (by decide)).2.2 5 (by decide) (by decide) []

/-- Claim C6: emit fixes its frontier at the slot count present when the
emission starts: every invoked identity belongs to a slot present at the
start, the invoked identities respect insertion order as a sublist of the
slot sequence (with well-formedness, each at most once); and a slot appended
during the emit (its identity at or above the starting counter) is not
invoked in that pass, and — still active, unblocked and untargeted — is
invoked by the next emit. -/
theorem C6_emission_frontier (st : SignalState) (hWF : WF st) :
    (∀ c v, (c, v) ∈ (emit st).2 → ∃ s ∈ st.slots, s.id = c) ∧
    ((emit st).2.map Prod.fst).Sublist (st.slots.map SlotRec.id) ∧
    ((emit st).2.map Prod.fst).Nodup ∧
    (∀ s', s' ∈ (emit st).1.slots → st.nextId ≤ s'.id →
      s'.disconnected = false → s'.blocked = false →
      (∀ s'' ∈ (emit st).1.slots, targetsB s''.action s'.id = false) →
      s'.id ∉ (emit st).2.map Prod.fst ∧
      s'.id ∈ (emit (emit st).1).2.map Prod.fst) := by
  refine ⟨?_, emit_trace_sublist st, emit_trace_nodup st hWF, ?_⟩
  · intro c v hcv
    obtain ⟨j, s0, _, _, hj, hid, _, _⟩ :=
      emitWalk_trace_mem st st.slots.length 0 st (Evolves.refl st)
        (by omega) c v (by simpa [emit] using hcv)
    exact ⟨s0, List.getElem?_mem hj, hid⟩
  · intro s' hmem hfresh hdis hbl hnt
    constructor
    · intro hin
      obtain ⟨p, hp, hfst⟩ := List.mem_map.mp hin
      obtain ⟨c', v⟩ := p
      simp only at hfst
      obtain ⟨j, s0, _, _, hj, hid, _, _⟩ :=
        emitWalk_trace_mem st st.slots.length 0 st (Evolves.refl st)
          (by omega) c' v (by simpa [emit] using hp)
      have hlt : s0.id < st.nextId := hWF.2 s0 (List.getElem?_mem hj)
      omega
    · exact emit_invokes (emit st).1 s' hmem hdis hbl hnt

theorem C6_witness :
    (1 : Nat) ∉ (emit ⟨[⟨0, SlotAction.appendThen (SlotAction.ret 7) 1,
        false, false, none⟩], 1⟩).2.map Prod.fst ∧
    (1 : Nat) ∈ (emit (emit ⟨[⟨0, SlotAction.appendThen (SlotAction.ret 7) 1,
        false, false, none⟩], 1⟩).1).2.map Prod.fst :=
  (C6_emission_frontier
    ⟨[⟨0, SlotAction.appendThen (SlotAction.ret 7) 1, false, false, none⟩],
      1⟩ (by decide)).2.2.2
    ⟨1, SlotAction.ret 7, false, false, none⟩ (by decide) (by decide) rfl rfl
    (by decide)

/-- The signal used in the accumulation scenario: three slots returning 1, 2
and 3, subscribed in that order. -/
def threeSlotSignal : SignalState :=
  (subscribe (subscribe (subscribe ⟨[], 0⟩ (SlotAction.ret 1) none).1
    (SlotAction.ret 2) none).1 (SlotAction.ret 3) none).1

/-- Claim C7: with the default keep-last accumulation policy, emit on a
signal with three active slots returning 1, 2, 3 in subscription order
yields 3 (as the final folded value); with a collect-all policy the same
emit yields the ordered sequence `[1, 2, 3]`. -/
theorem C7_accumulation_policies :
    accumulate keepLast none (emit threeSlotSignal).2 = some 3 ∧
    accumulate collectAll [] (emit threeSlotSignal).2 = [1, 2, 3] := by
  constructor <;> rfl

/-- Claim C8: emitting a signal with zero live (active, unblocked) slots is
not an error: the walk invokes nothing, every accumulation policy returns
its identity/default value, and the signal is left unchanged. -/
theorem C8_emit_no_live_slots (st : SignalState)
    (hall : ∀ s ∈ st.slots, s.disconnected = true ∨ s.blocked = true) :
    (emit st).1 = st ∧ (emit st).2 = [] ∧
    ∀ (σ : Type) (policy : σ → Int → σ) (init : σ),
      accumulate policy init (emit st).2 = init := by
  have h := emitWalk_all_skipped st hall st.slots.length 0
  refine ⟨?_, ?_, ?_⟩
  · simpa [emit] using congrArg Prod.fst h
  · simpa [emit] using congrArg Prod.snd h
  · intro σ policy init
    have h2 : (emit st).2 = [] := by
      simpa [emit] using congrArg Prod.snd h
    rw [h2]
    rfl

theorem C8_witness :
    (emit ⟨[⟨0, SlotAction.ret 1, true, false, none⟩,
      ⟨1, SlotAction.ret 2, false, true, none⟩], 2⟩).1 =
      ⟨[⟨0, SlotAction.ret 1, true, false, none⟩,
        ⟨1, SlotAction.ret 2, false, true, none⟩], 2⟩ ∧
    accumulate keepLast none
      (emit ⟨[⟨0, SlotAction.ret 1, true, false, none⟩,
        ⟨1, SlotAction.ret 2, false, true, none⟩], 2⟩).2 = none :=
  ⟨(C8_emit_no_live_slots _ (by decide)).1,
    (C8_emit_no_live_slots _ (by decide)).2.2 (Option Int) keepLast none⟩

/-- Claim C9: `connected()` on a Connection is true immediately after the
subscribe that produced it, false immediately after disconnect through any
Connection holding the slot's identity, and false after the owning tracked
receiver is destroyed — for every state, hence in all interleavings of these
operations; and a default-constructed Connection always reports not
connected. -/
theorem C9_connection_queries :
    (∀ (st : SignalState) (a : SlotAction) (tr : Option Nat),
      Connection.connectedQ (subscribe st a tr).1
        (some (subscribe st a tr).2) = true) ∧
    (∀ (st : SignalState) (c : Nat),
      Connection.connectedQ (disconnect st c) (some c) = false) ∧
    (∀ (st : SignalState) (r : Nat) (s : SlotRec), WF st → s ∈ st.slots →
      s.tracked = some r →
      Connection.connectedQ (destroyReceiver st r) (some s.id) = false) ∧
    (∀ st : SignalState,
      Connection.connectedQ st Connection.default = false) := by
  refine ⟨?_, ?_, ?_, fun _ => rfl⟩
  · intro st a tr
    simp [Connection.connectedQ, connectedQ, subscribe]
  · intro st c
    simp only [Connection.connectedQ, connectedQ, disconnect,
      List.any_map, List.any_eq_false, Function.comp]
    intro s _
    by_cases h : s.id = c
    · simp [h]
    · simp [h]
  · intro st r s hWF hs htr
    simp only [Connection.connectedQ, connectedQ, destroyReceiver,
      List.any_map, List.any_eq_false, Function.comp]
    intro s' hs'
    by_cases h : s'.id = s.id
    · have heq : s' = s := List.inj_on_of_nodup_map hWF.1 hs' hs h
      subst heq
      simp [htr]
    · split <;> simp [h]

theorem C9_witness :
    Connection.connectedQ
      (destroyReceiver ⟨[⟨0, SlotAction.ret 1, false, false, some 7⟩], 1⟩ 7)
      (some 0) = false :=
  C9_connection_queries.2.2.1
    ⟨[⟨0, SlotAction.ret 1, false, false, some 7⟩], 1⟩ 7
    ⟨0, SlotAction.ret 1, false, false, some 7⟩ (by decide) (by decide) rfl

end Sigc

